import Mathlib

set_option maxHeartbeats 1000000
set_option maxRecDepth 100000

/-!
Verification of the daily word game backend (`app/routes/game.py`).

Python strings are modelled as lists of characters (`Str`), Python's
in-place mutation of lists and of the per-session store becomes explicit
state passing, and the Flask transport layer (routing, cookies, schema
plumbing) is externalized: the clock is a `date` parameter and the
session identity is a `token` parameter, matching the spec's description
of the core operations `getStatus(token)` and `submitGuess(token, guess)`.
-/

/-- Per-letter feedback colors, the strings "green" / "yellow" / "grey"
in the Python source. -/
inductive Color where
  | green
  | yellow
  | grey
deriving DecidableEq, Repr

/-- Python strings modelled as lists of characters. -/
abbrev Str := List Char

/-- The fixed word list `WORD_LIST` from the source. -/
def WORD_LIST : List Str :=
  ["OCEANS".data, "CORALS".data, "PEARLS".data, "SAILOR".data,
   "MARINE".data, "BUBBLE".data, "DOLPHN".data, "ANCHOR".data,
   "TIDESY".data, "REEFUS".data, "SEABED".data, "BRIGHT".data,
   "PURPLE".data, "PINKER".data, "SMOOTH".data, "STREAM".data,
   "GLOWER".data, "WAVING".data, "SPRITZ".data, "VIVIFY".data]

def MAX_ATTEMPTS : Nat := 5

def WORD_LENGTH : Nat := 6

/-- ASCII whitespace; models the whitespace set of Python's `str.strip`
on the ASCII range. -/
def isSpaceChar (c : Char) : Bool :=
  decide (c = ' ') || decide (c = '\t') || decide (c = '\n') ||
  decide (c = '\r') || decide (c = '\x0b') || decide (c = '\x0c')

/-- Models Python's `str.isalpha` character test on the ASCII range. -/
def isAlphaChar (c : Char) : Bool :=
  (decide ('A' ≤ c) && decide (c ≤ 'Z')) || (decide ('a' ≤ c) && decide (c ≤ 'z'))

/-- An ASCII uppercase letter. -/
def isUpperChar (c : Char) : Bool :=
  decide ('A' ≤ c) && decide (c ≤ 'Z')

/-- Models Python's `str.upper` on a single ASCII character. -/
def pyUpperChar (c : Char) : Char :=
  if 'a' ≤ c ∧ c ≤ 'z' then Char.ofNat (c.toNat - 32) else c

/-- Models Python's `str.upper` on the ASCII range. -/
def pyUpper (s : Str) : Str := s.map pyUpperChar

/-- Models Python's `str.strip()`: remove leading and trailing whitespace. -/
def pyStrip (s : Str) : Str :=
  ((s.dropWhile isSpaceChar).reverse.dropWhile isSpaceChar).reverse

/-- Models Python's `str.isalpha()`: false on the empty string, true iff
every character is alphabetic. -/
def pyIsAlpha (s : Str) : Bool := !s.isEmpty && s.all isAlphaChar

/-- Python's `list.index`: index of the first occurrence (the source only
calls it on elements known to be present; out of range otherwise). -/
def pyIndex : List (Option Char) → Option Char → Nat
  | [], _ => 0
  | a :: s, x => if a = x then 0 else pyIndex s x + 1

/-- `answer_chars[answer_chars.index(ch)] = None` from `score_guess`:
consume the first remaining occurrence of `ch`. -/
def consume (ac : List (Option Char)) (ch : Char) : List (Option Char) :=
  ac.set (pyIndex ac (some ch)) none

/-- First pass of `score_guess` (greens): `for i, ch in enumerate(guess):
if answer[i] == ch: res[i] = "green"; answer_chars[i] = None`. -/
def pass1go (answer : List Char) :
    List Char → Nat → List Color × List (Option Char) → List Color × List (Option Char)
  | [], _, st => st
  | ch :: rest, i, (res, ac) =>
    if answer.get? i = some ch then
      pass1go answer rest (i + 1) (res.set i Color.green, ac.set i none)
    else
      pass1go answer rest (i + 1) (res, ac)

/-- Second pass of `score_guess` (yellows): for each position not already
green, if the letter is still in `answer_chars`, mark yellow and consume
its first remaining occurrence. -/
def pass2go : List Char → Nat → List Color × List (Option Char) → List Color × List (Option Char)
  | [], _, st => st
  | ch :: rest, i, (res, ac) =>
    if res.get? i = some Color.green then pass2go rest (i + 1) (res, ac)
    else if some ch ∈ ac then pass2go rest (i + 1) (res.set i Color.yellow, consume ac ch)
    else pass2go rest (i + 1) (res, ac)

/-- `score_guess(guess, answer)` from the source: two-pass Wordle scoring. -/
def score_guess (guess answer : Str) : List Color :=
  let res := List.replicate WORD_LENGTH Color.grey
  let answer_chars : List (Option Char) := answer.map some
  let st1 := pass1go answer guess 0 (res, answer_chars)
  (pass2go guess 0 st1).1

/-!
SHA-256 (FIPS 180-4), modelling the Python standard library call
`hashlib.sha256` used by `select_daily_word`. All arithmetic is on `Nat`
with explicit reduction modulo `2 ^ 32`.
-/

/-- `2 ^ 32`, the word modulus of SHA-256. -/
def M32 : Nat := 4294967296

/-- Right rotation of a 32-bit word. -/
def rotr (n x : Nat) : Nat := ((x >>> n) ||| (x <<< (32 - n))) % M32

/-- SHA-256 `Ch` function; complement is xor with `2 ^ 32 - 1`. -/
def shaCh (x y z : Nat) : Nat := (x &&& y) ^^^ ((x ^^^ 4294967295) &&& z)

/-- SHA-256 `Maj` function. -/
def shaMaj (x y z : Nat) : Nat := (x &&& y) ^^^ (x &&& z) ^^^ (y &&& z)

/-- SHA-256 big sigma 0. -/
def bigS0 (x : Nat) : Nat := rotr 2 x ^^^ rotr 13 x ^^^ rotr 22 x

/-- SHA-256 big sigma 1. -/
def bigS1 (x : Nat) : Nat := rotr 6 x ^^^ rotr 11 x ^^^ rotr 25 x

/-- SHA-256 small sigma 0. -/
def smallS0 (x : Nat) : Nat := rotr 7 x ^^^ rotr 18 x ^^^ (x >>> 3)

/-- SHA-256 small sigma 1. -/
def smallS1 (x : Nat) : Nat := rotr 17 x ^^^ rotr 19 x ^^^ (x >>> 10)

/-- The 64 SHA-256 round constants. -/
def shaK : List Nat :=
  [1116352408, 1899447441, 3049323471, 3921009573, 961987163,
   1508970993, 2453635748, 2870763221, 3624381080, 310598401,
   607225278, 1426881987, 1925078388, 2162078206, 2614888103,
   3248222580, 3835390401, 4022224774, 264347078, 604807628,
   770255983, 1249150122, 1555081692, 1996064986, 2554220882,
   2821834349, 2952996808, 3210313671, 3336571891, 3584528711,
   113926993, 338241895, 666307205, 773529912, 1294757372,
   1396182291, 1695183700, 1986661051, 2177026350, 2456956037,
   2730485921, 2820302411, 3259730800, 3345764771, 3516065817,
   3600352804, 4094571909, 275423344, 430227734, 506948616,
   659060556, 883997877, 958139571, 1322822218, 1537002063,
   1747873779, 1955562222, 2024104815, 2227730452, 2361852424,
   2428436474, 2756734187, 3204031479, 3329325298]

/-- The SHA-256 initial hash value. -/
def shaH0 : List Nat :=
  [1779033703, 3144134277, 1013904242, 2773480762,
   1359893119, 2600822924, 528734635, 1541459225]

/-- The `k` lowest bytes of `n`, big-endian. -/
def toBytesBE : Nat → Nat → List Nat
  | 0, _ => []
  | k + 1, n => toBytesBE k (n / 256) ++ [n % 256]

/-- SHA-256 message padding: append `0x80`, zeros to 56 mod 64, then the
bit length as 8 big-endian bytes. -/
def shaPad (msg : List Nat) : List Nat :=
  let L := msg.length
  let padZeros := (119 - (L % 64)) % 64
  msg ++ [128] ++ List.replicate padZeros 0 ++ toBytesBE 8 (8 * L)

/-- Group bytes into 32-bit words, big-endian. -/
def words32 : List Nat → List Nat
  | b0 :: b1 :: b2 :: b3 :: rest => (((b0 * 256 + b1) * 256 + b2) * 256 + b3) :: words32 rest
  | _ => []

/-- Extend the 16 block words to the 64-entry message schedule;
`n` counts the remaining extension steps. -/
def shaExtend : Nat → List Nat → List Nat
  | 0, w => w
  | n + 1, w =>
    let t := w.length
    let wt := (smallS1 (w.getD (t - 2) 0) + w.getD (t - 7) 0 +
               smallS0 (w.getD (t - 15) 0) + w.getD (t - 16) 0) % M32
    shaExtend n (w ++ [wt])

/-- One SHA-256 compression round; the state is the 8 working variables. -/
def shaRound (st : List Nat) (kw : Nat × Nat) : List Nat :=
  match st with
  | [a, b, c, d, e, f, g, h] =>
    let t1 := (h + bigS1 e + shaCh e f g + kw.1 + kw.2) % M32
    let t2 := (bigS0 a + shaMaj a b c) % M32
    [(t1 + t2) % M32, a, b, c, (d + t1) % M32, e, f, g]
  | _ => st

/-- Compress one 64-byte block into the hash state. -/
def shaCompress (h : List Nat) (block : List Nat) : List Nat :=
  let w := shaExtend 48 (words32 block)
  let st := (shaK.zip w).foldl shaRound h
  (h.zip st).map (fun p => (p.1 + p.2) % M32)

/-- Fold the compression over all 64-byte blocks; the first argument is
fuel (any bound on the number of remaining bytes). -/
def shaBlocks : Nat → List Nat → List Nat → List Nat
  | 0, h, _ => h
  | fuel + 1, h, msg =>
    match msg with
    | [] => h
    | _ => shaBlocks fuel (shaCompress h (msg.take 64)) (msg.drop 64)

/-- The SHA-256 digest of a byte sequence, as 32 bytes. -/
def sha256Bytes (msg : List Nat) : List Nat :=
  let padded := shaPad msg
  let hfin := shaBlocks padded.length shaH0 padded
  hfin.foldr (fun w acc => toBytesBE 4 w ++ acc) []

/-- The digest read as a non-negative integer: Python's
`int(hashlib.sha256(b).hexdigest(), 16)`. -/
def sha256Nat (msg : List Nat) : Nat :=
  (sha256Bytes msg).foldl (fun acc b => acc * 256 + b) 0

/-- UTF-8 encoding of one character. -/
def utf8EncodeChar (c : Char) : List Nat :=
  let n := c.toNat
  if n < 128 then [n]
  else if n < 2048 then [192 + n / 64, 128 + n % 64]
  else if n < 65536 then [224 + n / 4096, 128 + (n / 64) % 64, 128 + n % 64]
  else [240 + n / 262144, 128 + (n / 4096) % 64, 128 + (n / 64) % 64, 128 + n % 64]

/-- UTF-8 encoding of a string: Python's `s.encode("utf-8")`. -/
def utf8Encode (s : Str) : List Nat := (s.map utf8EncodeChar).flatten

/-- `select_daily_word(date_key)` from the source: deterministic index
from the SHA-256 hash of the date, modulo the word list length. -/
def select_daily_word (date_key : Str) : Str :=
  let h := sha256Nat (utf8Encode date_key)
  let idx := h % WORD_LIST.length
  pyUpper (WORD_LIST.getD idx [])

/-!
The per-session, per-day state machine: the in-memory `STORE`
(`store[token][date] = {"attempts": [...], "finished": bool, "won": bool}`)
is modelled as an association list keyed by the (token, date) pair, and
the two endpoint handlers `GameStatus.get` and `GameGuess.post` become
functions from a store to a result together with the updated store.
-/

/-- One recorded attempt: `{"guess": guess, "feedback": feedback}`. -/
structure Attempt where
  guess : Str
  feedback : List Color
deriving DecidableEq, Repr

/-- One day's record for one session token:
`{"attempts": [...], "finished": bool, "won": bool}`. -/
structure DayRecord where
  attempts : List Attempt
  finished : Bool
  won : Bool
deriving DecidableEq, Repr

/-- The record created on first access for a (token, date) pair. -/
def emptyRecord : DayRecord := { attempts := [], finished := false, won := false }

/-- The in-memory `STORE`, flattened to a single association list keyed
by the (token, date) pair. -/
abbrev Store := List ((Str × Str) × DayRecord)

/-- Dictionary lookup in the store. -/
def lookupStore : Store → Str × Str → Option DayRecord
  | [], _ => none
  | e :: s, k => if e.1 = k then some e.2 else lookupStore s k

/-- Dictionary assignment in the store (the Python code mutates the
record object in place; here the value at the key is replaced). -/
def setStore : Store → Str × Str → DayRecord → Store
  | [], _, _ => []
  | e :: s, k, v => if e.1 = k then (k, v) :: setStore s k v else e :: setStore s k v

/-- `get_state_for_today(token)`: return the existing record for
(token, date) or create the empty one, storing it. The date is the
externalized clock value `today_key()`. -/
def get_state_for_today (store : Store) (token date : Str) : DayRecord × Store :=
  match lookupStore store (token, date) with
  | some r => (r, store)
  | none => (emptyRecord, ((token, date), emptyRecord) :: store)

/-- The JSON payload returned by `GET /api/status`. -/
structure StatusPayload where
  date : Str
  attempts : List (List Color)
  guesses : List Str
  attempts_used : Nat
  max_attempts : Nat
  status : Str
  message : Str
deriving DecidableEq, Repr

/-- `GameStatus.get`: the status endpoint. Returns the payload and the
store (which gains a fresh empty record on first access). -/
def GameStatus.get (store : Store) (token date : Str) : StatusPayload × Store :=
  let answer := select_daily_word date
  let (state, store') := get_state_for_today store token date
  let guesses := state.attempts.map (fun e => e.guess)
  let attempts_feedback := state.attempts.map (fun e => e.feedback)
  let status : Str :=
    if state.won then "won".data
    else if state.finished = true ∧ state.won = false then "lost".data
    else "in_progress".data
  let msg : Str :=
    if status = "in_progress".data then "Make your guess!".data
    else if status = "won".data then "You won! 🎉".data
    else "Out of attempts. The word was ".data ++ answer ++ ".".data
  ({ date := date, attempts := attempts_feedback, guesses := guesses,
     attempts_used := state.attempts.length, max_attempts := MAX_ATTEMPTS,
     status := status, message := msg }, store')

/-- The JSON payload returned by `POST /api/guess`. -/
structure GuessResult where
  feedback : List Color
  attempts_used : Nat
  max_attempts : Nat
  status : Str
  message : Str
deriving DecidableEq, Repr

/-- `GameGuess.post`: the guess endpoint (the method body, lines 164-218
of the source; the spec's `submitGuess(token, rawGuess)`). A
`ValidationError` raised on a malformed guess is modelled as
`Except.error`; note that the raise happens after `get_state_for_today`,
so a record created by that call persists. -/
def GameGuess.post (store : Store) (token date : Str) (raw : Str) :
    Except Str GuessResult × Store :=
  let answer := select_daily_word date
  let (state, store₁) := get_state_for_today store token date
  if state.finished then
    (Except.ok { feedback := [], attempts_used := state.attempts.length,
                 max_attempts := MAX_ATTEMPTS,
                 status := if state.won then "won".data else "lost".data,
                 message := "Game already finished for today.".data }, store₁)
  else
    let guess := pyUpper (pyStrip raw)
    if guess.length ≠ WORD_LENGTH ∨ pyIsAlpha guess = false then
      (Except.error ("Guess must be exactly 6 letters.".data), store₁)
    else
      let feedback := score_guess guess answer
      let attempts' := state.attempts ++ [{ guess := guess, feedback := feedback }]
      let won := feedback.all (fun x => decide (x = Color.green))
      if won then
        (Except.ok { feedback := feedback, attempts_used := attempts'.length,
                     max_attempts := MAX_ATTEMPTS, status := "won".data,
                     message := "Correct! 🎉".data },
         setStore store₁ (token, date) { attempts := attempts', finished := true, won := true })
      else if attempts'.length ≥ MAX_ATTEMPTS then
        (Except.ok { feedback := feedback, attempts_used := attempts'.length,
                     max_attempts := MAX_ATTEMPTS, status := "lost".data,
                     message := "No attempts left. The word was ".data ++ answer ++ ".".data },
         setStore store₁ (token, date) { attempts := attempts', finished := true, won := false })
      else
        (Except.ok { feedback := feedback, attempts_used := attempts'.length,
                     max_attempts := MAX_ATTEMPTS, status := "in_progress".data,
                     message := "Good try! Keep going.".data },
         setStore store₁ (token, date)
           { attempts := attempts', finished := state.finished, won := state.won })

/-- The stores reachable from the empty initial `STORE` by any sequence
of status and guess requests (with arbitrary tokens, dates and raw
guesses). -/
inductive ReachableStore : Store → Prop where
  | init : ReachableStore []
  | status (token date : Str) {s : Store} :
      ReachableStore s → ReachableStore (GameStatus.get s token date).2
  | guess (token date raw : Str) {s : Store} :
      ReachableStore s → ReachableStore (GameGuess.post s token date raw).2

/-!
Proof layer for `score_guess`. The two indexed passes are related to
structural recursions over the zipped lists (bridge lemmas below), and
the combinatorial facts about yellow assignment are proved on the
structural form.
-/

/-- Feedback of the first pass at one position: green exactly on an
exact match (`answer[i] == ch`). -/
def greenRow (p : Char × Char) : Color :=
  if p.2 = p.1 then Color.green else Color.grey

/-- Remaining-letter multiset entry after the first pass: the answer
letter survives unless it was consumed by a green. -/
def remRow (p : Char × Char) : Option Char :=
  if p.2 = p.1 then none else some p.2

/-- Structural version of the second pass: input is the guess letter
paired with the first-pass feedback at that position. -/
def pass2s : List (Char × Color) → List (Option Char) → List Color × List (Option Char)
  | [], ac => ([], ac)
  | q :: rest, ac =>
    if q.2 = Color.green then
      let r := pass2s rest ac
      (q.2 :: r.1, r.2)
    else if some q.1 ∈ ac then
      let r := pass2s rest (consume ac q.1)
      (Color.yellow :: r.1, r.2)
    else
      let r := pass2s rest ac
      (q.2 :: r.1, r.2)

theorem take_set_self {α : Type} (l : List α) (i : Nat) (v : α) :
    (l.set i v).take i = l.take i := by
  apply List.ext_getElem?
  intro j
  rcases Nat.lt_or_ge j i with hj | hj
  · rw [List.getElem?_take, List.getElem?_take, if_pos hj, if_pos hj,
      List.getElem?_set_ne (Nat.ne_of_gt hj)]
  · rw [List.getElem?_take, List.getElem?_take, if_neg (Nat.not_lt.mpr hj),
      if_neg (Nat.not_lt.mpr hj)]

theorem set_getElem?_self {α : Type} (l : List α) (i : Nat) (v : α) (h : i < l.length) :
    (l.set i v)[i]? = some v := by
  rw [List.getElem?_set_self', List.getElem?_eq_getElem h]
  rfl

theorem take_succ_set {α : Type} (l : List α) (i : Nat) (v : α) (h : i < l.length) :
    (l.set i v).take (i + 1) = l.take i ++ [v] := by
  rw [List.take_succ, take_set_self, set_getElem?_self l i v h]
  rfl

theorem take_succ_getElem {α : Type} (l : List α) (i : Nat) (v : α) (h : l[i]? = some v) :
    l.take (i + 1) = l.take i ++ [v] := by
  rw [List.take_succ, h]
  rfl

/-- Splitting a count along a second predicate. -/
theorem countP_split {α : Type} (p q : α → Bool) (l : List α) :
    l.countP p = (l.countP fun x => p x && q x) + (l.countP fun x => p x && !q x) := by
  induction l with
  | nil => simp
  | cons a t ih =>
    simp only [List.countP_cons, ih]
    cases hp : p a <;> cases hq : q a <;> simp [hp, hq] <;> omega

theorem mem_iff_countP_pos (ac : List (Option Char)) (x : Option Char) :
    x ∈ ac ↔ 0 < ac.countP (fun y => decide (y = x)) := by
  rw [List.countP_pos_iff]
  simp

/-- Consuming the first occurrence removes exactly one from the count. -/
theorem consume_count_self (ac : List (Option Char)) (c : Char) (h : some c ∈ ac) :
    (consume ac c).countP (fun y => decide (y = some c)) + 1
      = ac.countP (fun y => decide (y = some c)) := by
  induction ac with
  | nil => cases h
  | cons a t ih =>
    by_cases ha : a = some c
    · simp [consume, pyIndex, ha, List.countP_cons]
    · have ht : some c ∈ t := by
        rcases List.mem_cons.mp h with h | h
        · exact absurd h.symm ha
        · exact h
      have := ih ht
      simp only [consume, pyIndex, if_neg ha, List.set_cons_succ, List.countP_cons] at *
      simp only [decide_eq_true_eq]
      by_cases hax : a = some c <;> simp [hax] <;> omega

/-- Consuming one letter leaves the counts of other letters unchanged. -/
theorem consume_count_other (ac : List (Option Char)) (c : Char) (x : Option Char)
    (hx : x ≠ some c) (hn : x ≠ none) :
    (consume ac c).countP (fun y => decide (y = x)) = ac.countP (fun y => decide (y = x)) := by
  induction ac with
  | nil => rfl
  | cons a t ih =>
    by_cases ha : a = some c
    · simp only [consume, pyIndex, if_pos ha, List.set_cons_zero, List.countP_cons]
      have h1 : ¬(none = x) := fun h => hn h.symm
      have h2 : ¬(a = x) := by
        rw [ha]
        exact fun h => hx h.symm
      simp [h1, h2]
    · simp only [consume, pyIndex, if_neg ha, List.set_cons_succ, List.countP_cons]
      exact congrArg (· + _) ih

theorem pass2s_length (l : List (Char × Color)) (ac : List (Option Char)) :
    (pass2s l ac).1.length = l.length := by
  induction l generalizing ac with
  | nil => rfl
  | cons q rest ih =>
    simp only [pass2s]
    split_ifs <;> simp [ih]

/-- The second pass is prefix-stable: truncating the input truncates the
output. -/
theorem pass2s_take (l : List (Char × Color)) (ac : List (Option Char)) (n : Nat) :
    (pass2s (l.take n) ac).1 = (pass2s l ac).1.take n := by
  induction l generalizing ac n with
  | nil => simp [pass2s]
  | cons q rest ih =>
    match n with
    | 0 => simp [pass2s]
    | n + 1 =>
      simp only [List.take_succ_cons, pass2s]
      split_ifs <;> simp [ih]

/-- Pointwise: a position is green in the output of the second pass iff
it was green in its input. -/
theorem pass2s_green (l : List (Char × Color)) (ac : List (Option Char)) :
    List.Forall₂ (fun (q : Char × Color) (o : Color) => o = Color.green ↔ q.2 = Color.green)
      l (pass2s l ac).1 := by
  induction l generalizing ac with
  | nil => exact List.Forall₂.nil
  | cons q rest ih =>
    simp only [pass2s]
    split_ifs with h1 h2
    · exact List.Forall₂.cons (by simp [h1]) (ih ac)
    · exact List.Forall₂.cons (by simp [h1]) (ih (consume ac q.1))
    · exact List.Forall₂.cons Iff.rfl (ih ac)

/-- Count of yellows assigned to one letter: the minimum of the letter's
non-green occurrences and its remaining count in `ac`. -/
theorem pass2s_yellow_countP (l : List (Char × Color)) (ac : List (Option Char))
    (hl : ∀ q ∈ l, q.2 ≠ Color.yellow) (c : Char) :
    (l.zip (pass2s l ac).1).countP (fun po => decide (po.1.1 = c ∧ po.2 = Color.yellow))
      = min (l.countP fun q => decide (q.1 = c ∧ ¬ q.2 = Color.green))
            (ac.countP fun y => decide (y = some c)) := by
  induction l generalizing ac with
  | nil => simp [pass2s]
  | cons q rest ih =>
    have hq : q.2 ≠ Color.yellow := hl q (List.mem_cons_self q rest)
    have hl' : ∀ p ∈ rest, p.2 ≠ Color.yellow := fun p hp => hl p (List.mem_cons_of_mem q hp)
    simp only [pass2s]
    split_ifs with h1 h2
    · simp only [List.zip_cons_cons, List.countP_cons, ih ac hl']
      simp [h1]
    · by_cases cp : q.1 = c
      · subst cp
        have hc := consume_count_self ac q.1 h2
        have hpos : 0 < ac.countP (fun y => decide (y = some q.1)) :=
          (mem_iff_countP_pos ac (some q.1)).mp h2
        simp only [List.zip_cons_cons, List.countP_cons, ih (consume ac q.1) hl']
        simp [h1]
        omega
      · have hco := consume_count_other ac q.1 (some c)
          (fun h => cp (Option.some_injective _ h).symm) (Option.some_ne_none c)
        simp only [List.zip_cons_cons, List.countP_cons, ih (consume ac q.1) hl', hco]
        simp [cp]
    · have hz : ac.countP (fun y => decide (y = some q.1)) = 0 := by
        have := (mem_iff_countP_pos ac (some q.1)).not.mp h2
        omega
      by_cases cp : q.1 = c
      · subst cp
        simp only [List.zip_cons_cons, List.countP_cons, ih ac hl']
        simp [h1, hq, hz]
      · simp only [List.zip_cons_cons, List.countP_cons, ih ac hl']
        simp [cp]

/-- Leftmost characterization of yellow: a position gets yellow exactly
when it is not green and fewer earlier non-green occurrences of its
letter exist than the letter's remaining count in `ac`. -/
theorem pass2s_yellow_iff (l : List (Char × Color)) (ac : List (Option Char))
    (hl : ∀ p ∈ l, p.2 ≠ Color.yellow) (j : Nat) (q : Char × Color) (hj : l[j]? = some q) :
    ((pass2s l ac).1[j]? = some Color.yellow ↔
      (¬ q.2 = Color.green ∧
        (l.take j).countP (fun p => decide (p.1 = q.1 ∧ ¬ p.2 = Color.green))
          < ac.countP (fun y => decide (y = some q.1)))) := by
  induction l generalizing ac j with
  | nil => simp at hj
  | cons p rest ih =>
    have hp : p.2 ≠ Color.yellow := hl p (List.mem_cons_self p rest)
    have hl' : ∀ r ∈ rest, r.2 ≠ Color.yellow := fun r hr => hl r (List.mem_cons_of_mem p hr)
    simp only [pass2s]
    match j with
    | 0 =>
      have hpq : p = q := by simpa using hj
      subst hpq
      split_ifs with h1 h2
      · simp [h1]
      · have hpos : 0 < ac.countP (fun y => decide (y = some p.1)) :=
          (mem_iff_countP_pos ac (some p.1)).mp h2
        simp [h1, hpos]
      · have hz : ac.countP (fun y => decide (y = some p.1)) = 0 := by
          have := (mem_iff_countP_pos ac (some p.1)).not.mp h2
          omega
        simp [h1, hp, hz]
    | j + 1 =>
      have hj' : rest[j]? = some q := by simpa using hj
      split_ifs with h1 h2
      · rw [List.getElem?_cons_succ, ih ac hl' j hj']
        simp only [List.take_succ_cons, List.countP_cons]
        simp [h1]
      · by_cases cp : q.1 = p.1
        · have hc := consume_count_self ac p.1 h2
          have hpos : 0 < ac.countP (fun y => decide (y = some p.1)) :=
            (mem_iff_countP_pos ac (some p.1)).mp h2
          rw [List.getElem?_cons_succ, ih (consume ac p.1) hl' j hj']
          simp only [List.take_succ_cons, List.countP_cons, cp]
          simp only [h1, decide_eq_true_eq]
          refine and_congr Iff.rfl ?_
          simp [h1]
          omega
        · have hco := consume_count_other ac p.1 (some q.1)
            (fun h => cp (Option.some_injective _ h)) (Option.some_ne_none q.1)
          rw [List.getElem?_cons_succ, ih (consume ac p.1) hl' j hj', hco]
          simp only [List.take_succ_cons, List.countP_cons]
          have cp2 : ¬p.1 = q.1 := fun h => cp h.symm
          simp [cp2]
      · by_cases cp : q.1 = p.1
        · have hz : ac.countP (fun y => decide (y = some p.1)) = 0 := by
            have := (mem_iff_countP_pos ac (some p.1)).not.mp h2
            omega
          rw [List.getElem?_cons_succ, ih ac hl' j hj']
          simp only [List.take_succ_cons, List.countP_cons, cp, hz]
          refine and_congr Iff.rfl ?_
          simp [h1]
        · rw [List.getElem?_cons_succ, ih ac hl' j hj']
          simp only [List.take_succ_cons, List.countP_cons]
          have cp2 : ¬p.1 = q.1 := fun h => cp h.symm
          simp [cp2]

/-- Bridge for the first pass: starting from an all-grey suffix and the
untouched answer letters, the indexed pass computes `greenRow` / `remRow`
pointwise. -/
theorem pass1go_bridge (answer : List Char) (g : List Char) (i : Nat)
    (res : List Color) (ac : List (Option Char))
    (hr : res.length = WORD_LENGTH) (hacl : ac.length = WORD_LENGTH)
    (hans : answer.length = WORD_LENGTH) (hi : i + g.length = WORD_LENGTH)
    (hres : ∀ j, i ≤ j → j < WORD_LENGTH → res[j]? = some Color.grey)
    (hac : ∀ j, i ≤ j → j < WORD_LENGTH → ac[j]? = (answer[j]?).map some) :
    pass1go answer g i (res, ac)
      = (res.take i ++ (g.zip (answer.drop i)).map greenRow,
         ac.take i ++ (g.zip (answer.drop i)).map remRow) := by
  induction g generalizing i res ac with
  | nil =>
    have hiw : i = WORD_LENGTH := by simpa using hi
    subst hiw
    simp only [pass1go, List.zip_nil_left, List.map_nil, List.append_nil]
    rw [List.take_of_length_le hr.le, List.take_of_length_le hacl.le]
  | cons ch g' ih =>
    have hiW : i < WORD_LENGTH := by
      simp only [List.length_cons] at hi
      omega
    rcases hAo : answer[i]? with _ | a
    · rw [List.getElem?_eq_none_iff] at hAo
      omega
    have haeq : answer[i] = a := by
      rcases List.getElem?_eq_some.mp hAo with ⟨_, h⟩
      exact h
    have hdrop : answer.drop i = a :: answer.drop (i + 1) := by
      rw [List.drop_eq_getElem_cons (by omega), haeq]
    simp only [pass1go, List.get?_eq_getElem?, hAo]
    by_cases hach : a = ch
    · rw [if_pos (by rw [hach])]
      rw [ih (i + 1) (res.set i Color.green) (ac.set i none)
        (by rw [List.length_set, hr]) (by rw [List.length_set, hacl])
        (by simp only [List.length_cons] at hi; omega)
        (fun j h1 h2 => by
          rw [List.getElem?_set_ne (by omega)]
          exact hres j (by omega) h2)
        (fun j h1 h2 => by
          rw [List.getElem?_set_ne (by omega)]
          exact hac j (by omega) h2)]
      rw [hdrop, List.zip_cons_cons, List.map_cons, List.map_cons,
        take_succ_set res i Color.green (by omega), take_succ_set ac i none (by omega)]
      have hgr : greenRow (ch, a) = Color.green := by simp [greenRow, hach]
      have hrr : remRow (ch, a) = none := by simp [remRow, hach]
      rw [hgr, hrr]
      simp
    · rw [if_neg (by simp [hach])]
      rw [ih (i + 1) res ac hr hacl (by simp only [List.length_cons] at hi; omega)
        (fun j h1 h2 => hres j (by omega) h2)
        (fun j h1 h2 => hac j (by omega) h2)]
      rw [hdrop, List.zip_cons_cons, List.map_cons, List.map_cons,
        take_succ_getElem res i Color.grey (hres i (Nat.le_refl i) hiW),
        take_succ_getElem ac i (some a) (by rw [hac i (Nat.le_refl i) hiW, hAo]; rfl)]
      have hgr : greenRow (ch, a) = Color.grey := by simp [greenRow, hach]
      have hrr : remRow (ch, a) = some a := by simp [remRow, hach]
      rw [hgr, hrr]
      simp

/-- Bridge for the second pass: the indexed pass rewrites the suffix of
the feedback row exactly as the structural `pass2s` on the zipped input. -/
theorem pass2go_bridge (g : List Char) (i : Nat) (res : List Color) (ac : List (Option Char))
    (hi : i + g.length = res.length) :
    pass2go g i (res, ac)
      = (res.take i ++ (pass2s (g.zip (res.drop i)) ac).1,
         (pass2s (g.zip (res.drop i)) ac).2) := by
  induction g generalizing i res ac with
  | nil =>
    have hiw : i = res.length := by simpa using hi
    subst hiw
    simp [pass2go, pass2s, List.drop_length, List.take_of_length_le]
  | cons ch g' ih =>
    have hiR : i < res.length := by
      simp only [List.length_cons] at hi
      omega
    rcases hRo : res[i]? with _ | ri
    · rw [List.getElem?_eq_none_iff] at hRo
      omega
    have hreq : res[i] = ri := by
      rcases List.getElem?_eq_some.mp hRo with ⟨_, h⟩
      exact h
    have hdrop : res.drop i = ri :: res.drop (i + 1) := by
      rw [List.drop_eq_getElem_cons (by omega), hreq]
    rw [hdrop, List.zip_cons_cons]
    simp only [pass2go, List.get?_eq_getElem?, hRo, pass2s]
    by_cases h1 : ri = Color.green
    · rw [if_pos (by rw [h1]), if_pos h1]
      rw [ih (i + 1) res ac (by simp only [List.length_cons] at hi; omega)]
      rw [take_succ_getElem res i ri hRo, h1]
      simp
    · rw [if_neg (by simp [h1]), if_neg h1]
      by_cases h2 : some ch ∈ ac
      · rw [if_pos h2]
        rw [ih (i + 1) (res.set i Color.yellow) (consume ac ch)
          (by simp only [List.length_cons, List.length_set] at *; omega)]
        have hds : (res.set i Color.yellow).drop (i + 1) = res.drop (i + 1) := by
          rw [List.drop_set]
          simp
        rw [hds, take_succ_set res i Color.yellow (by omega)]
        simp [h2]
      · rw [if_neg h2]
        rw [ih (i + 1) res ac (by simp only [List.length_cons] at hi; omega)]
        rw [take_succ_getElem res i ri hRo]
        simp [h2]

/-- Generic zip-with-map identity used to align the second pass input. -/
theorem zip_map_self {β : Type} (f : Char × Char → β) :
    ∀ (g a : List Char), g.length = a.length →
      g.zip ((g.zip a).map f) = (g.zip a).map (fun p => (p.1, f p))
  | [], _, _ => by simp
  | _ :: _, [], h => by simp at h
  | x :: xs, y :: ys, h => by
    simp only [List.zip_cons_cons, List.map_cons]
    rw [zip_map_self f xs ys (by simpa using h)]

/-- `score_guess` on two words of the right length is the structural
second pass run on the first-pass rows. -/
theorem score_guess_eq_pass2s (g a : Str)
    (hg : g.length = WORD_LENGTH) (ha : a.length = WORD_LENGTH) :
    score_guess g a
      = (pass2s ((g.zip a).map (fun p => (p.1, greenRow p))) ((g.zip a).map remRow)).1 := by
  show (pass2go g 0 (pass1go a g 0 (List.replicate WORD_LENGTH Color.grey, a.map some))).1 = _
  rw [pass1go_bridge a g 0 (List.replicate WORD_LENGTH Color.grey) (a.map some)
    (by simp) (by simp [ha]) ha (by simpa using hg)
    (fun j h1 h2 => by simp [List.getElem?_replicate, h2])
    (fun j h1 h2 => by simp [List.getElem?_map])]
  simp only [List.take_zero, List.drop_zero, List.nil_append]
  rw [pass2go_bridge g 0 ((g.zip a).map greenRow) ((g.zip a).map remRow)
    (by simp [List.length_zip, hg, ha])]
  simp only [List.take_zero, List.drop_zero, List.nil_append]
  rw [zip_map_self greenRow g a (by omega)]

theorem all_map_general {α β : Type} (f : α → β) (l : List α) (p : β → Bool) :
    (l.map f).all p = l.all (fun x => p (f x)) := by
  induction l with
  | nil => rfl
  | cons x t ih => simp [ih]

/-- The second-pass input rows never contain yellow. -/
theorem pass2s_input_no_yellow (l : List (Char × Char)) :
    ∀ q ∈ l.map (fun p => (p.1, greenRow p)), q.2 ≠ Color.yellow := by
  intro q hq
  rcases List.mem_map.mp hq with ⟨p, _, rfl⟩
  simp only [greenRow]
  split_ifs <;> simp

/-- Transfer a count over the zip of a mapped-first-projection list. -/
theorem countP_zip_map_fst {α β γ : Type} (f : α → β) (l : List α) (out : List γ)
    (p : β → γ → Bool) :
    ((l.map f).zip out).countP (fun po => p po.1 po.2)
      = (l.zip out).countP (fun po => p (f po.1) po.2) := by
  induction l generalizing out with
  | nil => rfl
  | cons x t ih =>
    cases out with
    | nil => rfl
    | cons o os => simp [List.countP_cons, ih os]

/-- Along the green-iff pointwise relation, counts of green positions
agree between the input rows and the output. -/
theorem forall₂_green_countP (l : List (Char × Color)) (out : List Color)
    (h : List.Forall₂ (fun (q : Char × Color) (o : Color) => o = Color.green ↔ q.2 = Color.green)
      l out) (c : Char) :
    (l.zip out).countP (fun po => decide (po.1.1 = c ∧ po.2 = Color.green))
      = l.countP (fun q => decide (q.1 = c ∧ q.2 = Color.green)) := by
  induction h with
  | nil => rfl
  | cons hq _ ih =>
    simp only [List.zip_cons_cons, List.countP_cons, ih]
    simp [hq]

/-- Along the green-iff pointwise relation, counts of non-green positions
agree between the input rows and the output. -/
theorem forall₂_nongreen_countP (l : List (Char × Color)) (out : List Color)
    (h : List.Forall₂ (fun (q : Char × Color) (o : Color) => o = Color.green ↔ q.2 = Color.green)
      l out) (c : Char) :
    (l.zip out).countP (fun po => decide (po.1.1 = c ∧ ¬ po.2 = Color.green))
      = l.countP (fun q => decide (q.1 = c ∧ ¬ q.2 = Color.green)) := by
  induction h with
  | nil => rfl
  | cons hq _ ih =>
    simp only [List.zip_cons_cons, List.countP_cons, ih]
    simp [hq]

/-- Along the green-iff pointwise relation the all-green tests agree. -/
theorem forall₂_green_all (l : List (Char × Color)) (out : List Color)
    (h : List.Forall₂ (fun (q : Char × Color) (o : Color) => o = Color.green ↔ q.2 = Color.green)
      l out) :
    (out.all fun o => decide (o = Color.green)) = (l.all fun q => decide (q.2 = Color.green)) := by
  induction h with
  | nil => rfl
  | cons hq _ ih =>
    simp only [List.all_cons, ih]
    simp [hq]

/-- Two equal-length words agree iff every zipped pair matches. -/
theorem zip_all_eq_iff : ∀ (g a : List Char), g.length = a.length →
    (((g.zip a).all fun p => decide (p.2 = p.1)) = true ↔ g = a)
  | [], [], _ => by simp
  | [], _ :: _, h => by simp at h
  | _ :: _, [], h => by simp at h
  | x :: xs, y :: ys, h => by
    simp only [List.zip_cons_cons, List.all_cons, Bool.and_eq_true, decide_eq_true_eq,
      List.cons.injEq]
    rw [zip_all_eq_iff xs ys (by simpa using h)]
    constructor
    · rintro ⟨h1, h2⟩
      exact ⟨h1.symm, h2⟩
    · rintro ⟨h1, h2⟩
      exact ⟨h1.symm, h2⟩

/-- The feedback list always has length `WORD_LENGTH` for well-sized
inputs. -/
theorem score_guess_length (g a : Str)
    (hg : g.length = WORD_LENGTH) (ha : a.length = WORD_LENGTH) :
    (score_guess g a).length = WORD_LENGTH := by
  rw [score_guess_eq_pass2s g a hg ha, pass2s_length, List.length_map, List.length_zip, hg, ha]
  simp

theorem all_congr_general {α : Type} (p q : α → Bool) (l : List α)
    (h : ∀ x ∈ l, p x = q x) : l.all p = l.all q := by
  induction l with
  | nil => rfl
  | cons x t ih =>
    simp only [List.all_cons, h x (List.mem_cons_self x t),
      ih (fun y hy => h y (List.mem_cons_of_mem x hy))]

/-- Greens for a letter, counted on the guess side or the answer side. -/
theorem greens_count_symm (l : List (Char × Char)) (c : Char) :
    l.countP (fun p => decide (p.1 = c ∧ p.2 = p.1))
      = l.countP (fun p => decide (p.2 = c ∧ p.2 = p.1)) := by
  refine List.countP_congr (fun p _ => ?_)
  by_cases h : p.2 = p.1 <;> simp [h]

theorem guess_count_split (l : List (Char × Char)) (c : Char) :
    l.countP (fun p => decide (p.1 = c))
      = l.countP (fun p => decide (p.1 = c ∧ p.2 = p.1))
        + l.countP (fun p => decide (p.1 = c ∧ ¬ p.2 = p.1)) := by
  rw [countP_split (fun p : Char × Char => decide (p.1 = c)) (fun p => decide (p.2 = p.1)) l]
  congr 1
  · exact List.countP_congr (fun p _ => by by_cases h : p.2 = p.1 <;> simp [h])
  · exact List.countP_congr (fun p _ => by by_cases h : p.2 = p.1 <;> simp [h])

theorem answer_count_split (l : List (Char × Char)) (c : Char) :
    l.countP (fun p => decide (p.2 = c))
      = l.countP (fun p => decide (p.2 = c ∧ p.2 = p.1))
        + l.countP (fun p => decide (p.2 = c ∧ ¬ p.2 = p.1)) := by
  rw [countP_split (fun p : Char × Char => decide (p.2 = c)) (fun p => decide (p.2 = p.1)) l]
  congr 1
  · exact List.countP_congr (fun p _ => by by_cases h : p.2 = p.1 <;> simp [h])
  · exact List.countP_congr (fun p _ => by by_cases h : p.2 = p.1 <;> simp [h])

/-- Count of a letter in the remaining-letter row. -/
theorem remRow_count (l : List (Char × Char)) (c : Char) :
    (l.map remRow).countP (fun y => decide (y = some c))
      = l.countP (fun p => decide (p.2 = c ∧ ¬ p.2 = p.1)) := by
  rw [List.countP_map]
  refine List.countP_congr (fun p _ => ?_)
  simp only [Function.comp_apply, remRow]
  by_cases h : p.2 = p.1 <;> simp [h]

/-- Count of green first-pass rows for a letter. -/
theorem greenRowMap_count (l : List (Char × Char)) (c : Char) :
    (l.map (fun p => (p.1, greenRow p))).countP
        (fun q => decide (q.1 = c ∧ q.2 = Color.green))
      = l.countP (fun p => decide (p.1 = c ∧ p.2 = p.1)) := by
  rw [List.countP_map]
  refine List.countP_congr (fun p _ => ?_)
  simp only [Function.comp_apply, greenRow]
  by_cases h : p.2 = p.1 <;> simp [h]

/-- Count of non-green first-pass rows for a letter. -/
theorem greenRowMap_nongreen_count (l : List (Char × Char)) (c : Char) :
    (l.map (fun p => (p.1, greenRow p))).countP
        (fun q => decide (q.1 = c ∧ ¬ q.2 = Color.green))
      = l.countP (fun p => decide (p.1 = c ∧ ¬ p.2 = p.1)) := by
  rw [List.countP_map]
  refine List.countP_congr (fun p _ => ?_)
  simp only [Function.comp_apply, greenRow]
  by_cases h : p.2 = p.1 <;> simp [h]

/-- The guess letters are the first projection of the first-pass rows. -/
theorem map_fst_greenRow (g a : Str) (h : g.length ≤ a.length) :
    ((g.zip a).map (fun p => (p.1, greenRow p))).map Prod.fst = g := by
  rw [List.map_map]
  have hc : (Prod.fst ∘ fun p : Char × Char => (p.1, greenRow p)) = Prod.fst := rfl
  rw [hc, List.map_fst_zip g a h]

/-- C9: For every pair of 6-character uppercase alphabetic strings guess
and answer, and every letter c, the number of positions where the guess
has c and the feedback is green or yellow equals the minimum of the
occurrence counts of c in the guess and in the answer. -/
theorem score_guess_letter_min (g a : Str)
    (hg : g.length = WORD_LENGTH) (ha : a.length = WORD_LENGTH)
    (hgu : g.all isUpperChar = true) (hau : a.all isUpperChar = true) (c : Char) :
    ((g.zip (score_guess g a)).countP
        fun po => decide (po.1 = c ∧ (po.2 = Color.green ∨ po.2 = Color.yellow)))
      = min (g.countP fun x => decide (x = c)) (a.countP fun x => decide (x = c)) := by
  have hlen : g.length = a.length := by omega
  have hscore := score_guess_eq_pass2s g a hg ha
  have hfst := map_fst_greenRow g a (by omega)
  rw [hscore]
  have hB := countP_zip_map_fst Prod.fst ((g.zip a).map (fun p => (p.1, greenRow p)))
    (pass2s ((g.zip a).map (fun p => (p.1, greenRow p))) ((g.zip a).map remRow)).1
    (fun b o => decide (b = c ∧ (o = Color.green ∨ o = Color.yellow)))
  rw [hfst] at hB
  rw [hB]
  have hsplit :
      ((((g.zip a).map (fun p => (p.1, greenRow p))).zip
          (pass2s ((g.zip a).map (fun p => (p.1, greenRow p))) ((g.zip a).map remRow)).1).countP
        fun po => decide (po.1.1 = c ∧ (po.2 = Color.green ∨ po.2 = Color.yellow)))
      = ((((g.zip a).map (fun p => (p.1, greenRow p))).zip
          (pass2s ((g.zip a).map (fun p => (p.1, greenRow p))) ((g.zip a).map remRow)).1).countP
          fun po => decide (po.1.1 = c ∧ po.2 = Color.green))
        + ((((g.zip a).map (fun p => (p.1, greenRow p))).zip
          (pass2s ((g.zip a).map (fun p => (p.1, greenRow p))) ((g.zip a).map remRow)).1).countP
          fun po => decide (po.1.1 = c ∧ po.2 = Color.yellow)) := by
    rw [countP_split
      (fun po : (Char × Color) × Color =>
        decide (po.1.1 = c ∧ (po.2 = Color.green ∨ po.2 = Color.yellow)))
      (fun po => decide (po.2 = Color.green))]
    congr 1
    · exact List.countP_congr (fun po _ => by
        rcases po with ⟨⟨x, y⟩, o⟩
        rcases o <;> by_cases hx : x = c <;> simp [hx])
    · exact List.countP_congr (fun po _ => by
        rcases po with ⟨⟨x, y⟩, o⟩
        rcases o <;> by_cases hx : x = c <;> simp [hx])
  rw [hsplit]
  rw [forall₂_green_countP _ _ (pass2s_green _ _) c, greenRowMap_count]
  rw [pass2s_yellow_countP _ _ (pass2s_input_no_yellow (g.zip a)) c,
    greenRowMap_nongreen_count, remRow_count]
  have hgc : ((g.zip a).map Prod.fst).countP (fun x => decide (x = c))
      = (g.zip a).countP (fun p => decide (p.1 = c)) := by
    rw [List.countP_map]
    rfl
  rw [List.map_fst_zip g a (by omega)] at hgc
  have hac : ((g.zip a).map Prod.snd).countP (fun x => decide (x = c))
      = (g.zip a).countP (fun p => decide (p.2 = c)) := by
    rw [List.countP_map]
    rfl
  rw [List.map_snd_zip g a (by omega)] at hac
  rw [hgc, hac]
  have e5 := guess_count_split (g.zip a) c
  have e6 := answer_count_split (g.zip a) c
  have e7 := greens_count_symm (g.zip a) c
  omega

/-- C2: the feedback always has length 6, every entry is one of the three
colors, and the feedback is all-green iff the guess equals the answer. -/
theorem score_guess_output_contract (g a : Str)
    (hg : g.length = WORD_LENGTH) (ha : a.length = WORD_LENGTH)
    (hgu : g.all isUpperChar = true) (hau : a.all isUpperChar = true) :
    (score_guess g a).length = WORD_LENGTH
    ∧ (∀ x ∈ score_guess g a, x = Color.green ∨ x = Color.yellow ∨ x = Color.grey)
    ∧ (((score_guess g a).all fun x => decide (x = Color.green)) = true ↔ g = a) := by
  refine ⟨score_guess_length g a hg ha, fun x _ => by rcases x <;> simp, ?_⟩
  rw [score_guess_eq_pass2s g a hg ha]
  rw [forall₂_green_all _ _ (pass2s_green _ _)]
  rw [all_map_general]
  rw [all_congr_general _ (fun p => decide (p.2 = p.1)) _
    (fun p _ => by by_cases h : p.2 = p.1 <;> simp [greenRow, h])]
  exact zip_all_eq_iff g a (by omega)

/-- Pointwise green-iff along the `Forall₂` relation, in `getElem?` form. -/
theorem forall₂_green_getElem (l : List (Char × Color)) (out : List Color)
    (h : List.Forall₂ (fun (q : Char × Color) (o : Color) => o = Color.green ↔ q.2 = Color.green)
      l out) :
    ∀ (j : Nat) (q : Char × Color), l[j]? = some q →
      (out[j]? = some Color.green ↔ q.2 = Color.green) := by
  induction h with
  | nil => intro j q hj; simp at hj
  | @cons x o ltail outtail hq htail ih =>
    intro j q hj
    match j with
    | 0 =>
      have hx : x = q := by simpa using hj
      subst hx
      simpa using hq
    | j + 1 =>
      rw [List.getElem?_cons_succ] at hj ⊢
      exact ih j q hj

/-- Generic transfer of a count over the claim-level zip of the guess
with the feedback, restricted to the first `i` positions. -/
theorem prefix_countP_transfer (g a : Str)
    (hg : g.length = WORD_LENGTH) (ha : a.length = WORD_LENGTH)
    (i : Nat) (p : Char → Color → Bool) :
    ((g.take i).zip ((score_guess g a).take i)).countP (fun po => p po.1 po.2)
      = ((((g.zip a).map (fun q => (q.1, greenRow q))).take i).zip
          (pass2s (((g.zip a).map (fun q => (q.1, greenRow q))).take i)
            ((g.zip a).map remRow)).1).countP (fun po => p po.1.1 po.2) := by
  have hfst := map_fst_greenRow g a (by omega)
  rw [score_guess_eq_pass2s g a hg ha, ← pass2s_take]
  have hB := countP_zip_map_fst Prod.fst
    (((g.zip a).map (fun q => (q.1, greenRow q))).take i)
    ((pass2s (((g.zip a).map (fun q => (q.1, greenRow q))).take i) ((g.zip a).map remRow)).1) p
  rw [List.map_take, hfst] at hB
  exact hB

/-- Generic transfer of a count over the claim-level zip of the guess
with the feedback. -/
theorem full_countP_transfer (g a : Str)
    (hg : g.length = WORD_LENGTH) (ha : a.length = WORD_LENGTH)
    (p : Char → Color → Bool) :
    ((g.zip (score_guess g a)).countP (fun po => p po.1 po.2))
      = ((((g.zip a).map (fun q => (q.1, greenRow q))).zip
          (pass2s ((g.zip a).map (fun q => (q.1, greenRow q)))
            ((g.zip a).map remRow)).1).countP (fun po => p po.1.1 po.2)) := by
  have hfst := map_fst_greenRow g a (by omega)
  rw [score_guess_eq_pass2s g a hg ha]
  have hB := countP_zip_map_fst Prod.fst
    ((g.zip a).map (fun q => (q.1, greenRow q)))
    ((pass2s ((g.zip a).map (fun q => (q.1, greenRow q))) ((g.zip a).map remRow)).1) p
  rw [hfst] at hB
  exact hB

/-- Earlier non-green occurrences of a letter, computed against the
first-pass rows. -/
theorem prefix_nongreen_transfer (g a : Str)
    (hg : g.length = WORD_LENGTH) (ha : a.length = WORD_LENGTH) (i : Nat) (c : Char) :
    ((g.take i).zip ((score_guess g a).take i)).countP
        (fun po => decide (po.1 = c ∧ ¬ po.2 = Color.green))
      = (((g.zip a).map (fun q => (q.1, greenRow q))).take i).countP
          (fun q => decide (q.1 = c ∧ ¬ q.2 = Color.green)) :=
  (prefix_countP_transfer g a hg ha i (fun b o => decide (b = c ∧ ¬ o = Color.green))).trans
    (forall₂_nongreen_countP _ _ (pass2s_green _ _) c)

/-- Earlier yellows of a letter, evaluated by the counting lemma. -/
theorem prefix_yellow_transfer (g a : Str)
    (hg : g.length = WORD_LENGTH) (ha : a.length = WORD_LENGTH) (i : Nat) (c : Char) :
    ((g.take i).zip ((score_guess g a).take i)).countP
        (fun po => decide (po.1 = c ∧ po.2 = Color.yellow))
      = min ((((g.zip a).map (fun q => (q.1, greenRow q))).take i).countP
              (fun q => decide (q.1 = c ∧ ¬ q.2 = Color.green)))
            (((g.zip a).map remRow).countP (fun y => decide (y = some c))) :=
  (prefix_countP_transfer g a hg ha i (fun b o => decide (b = c ∧ o = Color.yellow))).trans
    (pass2s_yellow_countP _ _
      (fun q hq => pass2s_input_no_yellow (g.zip a) q (List.take_subset _ _ hq)) c)

/-- Green positions of a letter, computed on the zipped guess/answer. -/
theorem full_green_transfer (g a : Str)
    (hg : g.length = WORD_LENGTH) (ha : a.length = WORD_LENGTH) (c : Char) :
    ((g.zip (score_guess g a)).countP (fun po => decide (po.1 = c ∧ po.2 = Color.green)))
      = ((g.zip a).countP fun p => decide (p.1 = c ∧ p.2 = p.1)) :=
  (full_countP_transfer g a hg ha (fun b o => decide (b = c ∧ o = Color.green))).trans
    ((forall₂_green_countP _ _ (pass2s_green _ _) c).trans (greenRowMap_count _ c))

/-- The answer-side letter count read on the zipped lists. -/
theorem answer_countP_zip (g a : Str) (h : a.length ≤ g.length) (c : Char) :
    a.countP (fun x => decide (x = c)) = (g.zip a).countP (fun p => decide (p.2 = c)) := by
  have h1 : ((g.zip a).map Prod.snd).countP (fun x => decide (x = c))
      = (g.zip a).countP (fun p => decide (p.2 = c)) := by
    rw [List.countP_map]
    rfl
  rw [List.map_snd_zip g a h] at h1
  exact h1

/-- C1: yellow is assigned at a non-green position only while the
letter's remaining count (after greens and earlier yellows for that
letter) is positive; equivalently, exactly the first non-green
occurrences of the letter (left to right), up to the remaining count
after greens, get yellow, and the other occurrences stay grey. -/
theorem score_guess_yellow_rule (g a : Str)
    (hg : g.length = WORD_LENGTH) (ha : a.length = WORD_LENGTH)
    (hgu : g.all isUpperChar = true) (hau : a.all isUpperChar = true)
    (i : Nat) (c : Char) (hc : g[i]? = some c)
    (hng : ¬ (score_guess g a)[i]? = some Color.green) :
    (((score_guess g a)[i]? = some Color.yellow →
        ((g.take i).zip ((score_guess g a).take i)).countP
            (fun po => decide (po.1 = c ∧ po.2 = Color.yellow))
          < (a.countP fun x => decide (x = c))
            - ((g.zip (score_guess g a)).countP
                fun po => decide (po.1 = c ∧ po.2 = Color.green)))
      ∧ ((score_guess g a)[i]? = some Color.yellow ↔
          ((g.take i).zip ((score_guess g a).take i)).countP
              (fun po => decide (po.1 = c ∧ ¬ po.2 = Color.green))
            < (a.countP fun x => decide (x = c))
              - ((g.zip (score_guess g a)).countP
                  fun po => decide (po.1 = c ∧ po.2 = Color.green)))
      ∧ (¬ (score_guess g a)[i]? = some Color.yellow →
          (score_guess g a)[i]? = some Color.grey)) := by
  have hscore := score_guess_eq_pass2s g a hg ha
  have hiw : i < WORD_LENGTH := by
    rcases List.getElem?_eq_some.mp hc with ⟨h, _⟩
    omega
  rcases hao : a[i]? with _ | ai
  · rw [List.getElem?_eq_none_iff] at hao
    omega
  have hzi : (g.zip a)[i]? = some (c, ai) :=
    List.getElem?_zip_eq_some.mpr ⟨hc, hao⟩
  have hl2i : ((g.zip a).map (fun q => (q.1, greenRow q)))[i]? = some (c, greenRow (c, ai)) := by
    rw [List.getElem?_map, hzi]
    rfl
  have hgiff := forall₂_green_getElem _ _
    (pass2s_green ((g.zip a).map (fun q => (q.1, greenRow q))) ((g.zip a).map remRow))
    i _ hl2i
  have hq2 : ¬ greenRow (c, ai) = Color.green := by
    intro h
    exact hng (by rw [hscore]; exact hgiff.mpr h)
  have hiffc :
      ((pass2s ((g.zip a).map (fun q => (q.1, greenRow q))) ((g.zip a).map remRow)).1[i]?
          = some Color.yellow) ↔
        (¬ greenRow (c, ai) = Color.green ∧
          ((((g.zip a).map (fun q => (q.1, greenRow q))).take i).countP
              (fun p => decide (p.1 = c ∧ ¬ p.2 = Color.green)))
            < (((g.zip a).map remRow).countP (fun y => decide (y = some c)))) :=
    pass2s_yellow_iff _ _ (pass2s_input_no_yellow (g.zip a)) i (c, greenRow (c, ai)) hl2i
  have hkey : ((score_guess g a)[i]? = some Color.yellow ↔
      ((((g.zip a).map (fun q => (q.1, greenRow q))).take i).countP
          (fun p => decide (p.1 = c ∧ ¬ p.2 = Color.green)))
        < (((g.zip a).map remRow).countP (fun y => decide (y = some c)))) := by
    rw [hscore, hiffc]
    exact and_iff_right hq2
  have hEn := prefix_nongreen_transfer g a hg ha i c
  have hEy := prefix_yellow_transfer g a hg ha i c
  have hG := full_green_transfer g a hg ha c
  have hA := answer_countP_zip g a (by omega) c
  have harith : (g.zip a).countP (fun p => decide (p.2 = c))
        - (g.zip a).countP (fun p => decide (p.1 = c ∧ p.2 = p.1))
      = ((g.zip a).map remRow).countP (fun y => decide (y = some c)) := by
    have e6 := answer_count_split (g.zip a) c
    have e7 := greens_count_symm (g.zip a) c
    have e8 := remRow_count (g.zip a) c
    omega
  refine ⟨?_, ?_, ?_⟩
  · intro hy
    have hmr := hkey.mp hy
    rw [hEy, hA, hG, harith]
    omega
  · rw [hEn, hA, hG, harith]
    exact hkey
  · intro hny
    rcases hxo : (score_guess g a)[i]? with _ | x
    · rw [List.getElem?_eq_none_iff, score_guess_length g a hg ha] at hxo
      omega
    rcases x with _ | _ | _
    · exact absurd hxo hng
    · exact absurd hxo hny
    · rfl

theorem score_guess_yellow_rule_witness :
    ("SPEARS".data.length = WORD_LENGTH ∧ "PEARLS".data.length = WORD_LENGTH
      ∧ "SPEARS".data.all isUpperChar = true ∧ "PEARLS".data.all isUpperChar = true
      ∧ "SPEARS".data[0]? = some 'S'
      ∧ ¬ (score_guess ("SPEARS".data) ("PEARLS".data))[0]? = some Color.green)
    ∧ (((score_guess ("SPEARS".data) ("PEARLS".data))[0]? = some Color.yellow →
        (("SPEARS".data.take 0).zip ((score_guess ("SPEARS".data) ("PEARLS".data)).take 0)).countP
            (fun po => decide (po.1 = 'S' ∧ po.2 = Color.yellow))
          < ("PEARLS".data.countP fun x => decide (x = 'S'))
            - (("SPEARS".data.zip (score_guess ("SPEARS".data) ("PEARLS".data))).countP
                fun po => decide (po.1 = 'S' ∧ po.2 = Color.green)))
      ∧ ((score_guess ("SPEARS".data) ("PEARLS".data))[0]? = some Color.yellow ↔
          (("SPEARS".data.take 0).zip ((score_guess ("SPEARS".data) ("PEARLS".data)).take 0)).countP
              (fun po => decide (po.1 = 'S' ∧ ¬ po.2 = Color.green))
            < ("PEARLS".data.countP fun x => decide (x = 'S'))
              - (("SPEARS".data.zip (score_guess ("SPEARS".data) ("PEARLS".data))).countP
                  fun po => decide (po.1 = 'S' ∧ po.2 = Color.green)))
      ∧ (¬ (score_guess ("SPEARS".data) ("PEARLS".data))[0]? = some Color.yellow →
          (score_guess ("SPEARS".data) ("PEARLS".data))[0]? = some Color.grey)) :=
  ⟨⟨by decide, by decide, by decide, by decide, by decide, by decide⟩,
    score_guess_yellow_rule ("SPEARS".data) ("PEARLS".data) (by decide) (by decide)
      (by decide) (by decide) 0 'S' (by decide) (by decide)⟩

theorem score_guess_output_contract_witness :
    ("OCEANS".data.length = WORD_LENGTH ∧ "OCEANS".data.length = WORD_LENGTH
      ∧ "OCEANS".data.all isUpperChar = true)
    ∧ ((score_guess ("OCEANS".data) ("OCEANS".data)).length = WORD_LENGTH
      ∧ (∀ x ∈ score_guess ("OCEANS".data) ("OCEANS".data),
          x = Color.green ∨ x = Color.yellow ∨ x = Color.grey)
      ∧ (((score_guess ("OCEANS".data) ("OCEANS".data)).all
            fun x => decide (x = Color.green)) = true ↔ "OCEANS".data = "OCEANS".data)) :=
  ⟨⟨by decide, by decide, by decide⟩,
    score_guess_output_contract ("OCEANS".data) ("OCEANS".data) (by decide) (by decide)
      (by decide) (by decide)⟩

theorem score_guess_letter_min_witness :
    ("SPEARS".data.length = WORD_LENGTH ∧ "PEARLS".data.length = WORD_LENGTH
      ∧ "SPEARS".data.all isUpperChar = true ∧ "PEARLS".data.all isUpperChar = true)
    ∧ (("SPEARS".data.zip (score_guess ("SPEARS".data) ("PEARLS".data))).countP
        fun po => decide (po.1 = 'S' ∧ (po.2 = Color.green ∨ po.2 = Color.yellow)))
      = min ("SPEARS".data.countP fun x => decide (x = 'S'))
            ("PEARLS".data.countP fun x => decide (x = 'S')) :=
  ⟨⟨by decide, by decide, by decide, by decide⟩,
    score_guess_letter_min ("SPEARS".data) ("PEARLS".data) (by decide) (by decide)
      (by decide) (by decide) 'S'⟩

/-- C7: the daily word is the hash-selected, upper-cased entry of the
fixed word list; it always lies in the list and has length 6. -/
theorem select_daily_word_contract (dk : Str) (h8 : dk.length = 8) :
    select_daily_word dk
        = pyUpper (WORD_LIST.getD (sha256Nat (utf8Encode dk) % WORD_LIST.length) [])
    ∧ select_daily_word dk ∈ WORD_LIST
    ∧ (select_daily_word dk).length = WORD_LENGTH := by
  have hpos : 0 < WORD_LIST.length := by decide
  have hidx : sha256Nat (utf8Encode dk) % WORD_LIST.length < WORD_LIST.length :=
    Nat.mod_lt _ hpos
  have hmem : WORD_LIST.getD (sha256Nat (utf8Encode dk) % WORD_LIST.length) [] ∈ WORD_LIST := by
    rw [List.getD_eq_getElem?_getD, List.getElem?_eq_getElem hidx]
    exact List.getElem_mem hidx
  have hup : ∀ w ∈ WORD_LIST, pyUpper w = w := by decide
  have hlen : ∀ w ∈ WORD_LIST, w.length = WORD_LENGTH := by decide
  have hsel : select_daily_word dk
      = pyUpper (WORD_LIST.getD (sha256Nat (utf8Encode dk) % WORD_LIST.length) []) := rfl
  refine ⟨hsel, ?_, ?_⟩
  · rw [hsel, hup _ hmem]
    exact hmem
  · rw [hsel, hup _ hmem]
    exact hlen _ hmem

theorem select_daily_word_contract_witness :
    ("20240101".data.length = 8)
    ∧ (select_daily_word ("20240101".data)
        = pyUpper (WORD_LIST.getD
            (sha256Nat (utf8Encode ("20240101".data)) % WORD_LIST.length) [])
      ∧ select_daily_word ("20240101".data) ∈ WORD_LIST
      ∧ (select_daily_word ("20240101".data)).length = WORD_LENGTH) :=
  ⟨by decide, select_daily_word_contract ("20240101".data) (by decide)⟩

/-!
Helper facts about the Python string operations, used for the
normalization claim.
-/

theorem char_ofNat_toNat (n : Nat) (h : n < 55296) : (Char.ofNat n).toNat = n := by
  unfold Char.ofNat
  split
  · rfl
  · rename_i hv
    exact absurd (Or.inl h) hv

theorem pyUpperChar_toNat (c : Char) (h : 'a' ≤ c ∧ c ≤ 'z') :
    (pyUpperChar c).toNat = c.toNat - 32 := by
  have h1 : 97 ≤ c.toNat := h.1
  have h2 : c.toNat ≤ 122 := h.2
  rw [pyUpperChar, if_pos h]
  exact char_ofNat_toNat _ (by omega)

/-- Upper-casing never produces a lowercase letter. -/
theorem pyUpperChar_not_lower (c : Char) : ¬ ('a' ≤ pyUpperChar c ∧ pyUpperChar c ≤ 'z') := by
  by_cases h : 'a' ≤ c ∧ c ≤ 'z'
  · have h1 : 97 ≤ c.toNat := h.1
    have h2 : c.toNat ≤ 122 := h.2
    have ht := pyUpperChar_toNat c h
    intro hcon
    have h3 : 97 ≤ (pyUpperChar c).toNat := hcon.1
    omega
  · rw [pyUpperChar, if_neg h]
    exact h

/-- Upper-casing is idempotent. -/
theorem pyUpperChar_idem (c : Char) : pyUpperChar (pyUpperChar c) = pyUpperChar c := by
  rw [pyUpperChar, if_neg (pyUpperChar_not_lower c)]

theorem pyUpper_idem (s : Str) : pyUpper (pyUpper s) = pyUpper s := by
  simp only [pyUpper, List.map_map]
  exact List.map_congr_left (fun c _ => pyUpperChar_idem c)

/-- Upper-casing does not create or destroy whitespace. -/
theorem isSpaceChar_pyUpperChar (c : Char) : isSpaceChar (pyUpperChar c) = isSpaceChar c := by
  by_cases h : 'a' ≤ c ∧ c ≤ 'z'
  · have h1 : 97 ≤ c.toNat := h.1
    have h2 : c.toNat ≤ 122 := h.2
    have ht := pyUpperChar_toNat c h
    have hs1 : isSpaceChar (pyUpperChar c) = false := by
      rw [isSpaceChar]
      have : ∀ d : Char, 65 ≤ d.toNat → d.toNat ≤ 90 →
          (decide (d = ' ') || decide (d = '\t') || decide (d = '\n') ||
            decide (d = '\r') || decide (d = '\x0b') || decide (d = '\x0c')) = false := by
        intro d hd1 hd2
        have hne : ∀ e : Char, e.toNat < 65 → ¬ d = e := by
          intro e he hde
          rw [hde] at hd1
          omega
        simp [hne ' ' (by decide), hne '\t' (by decide), hne '\n' (by decide),
          hne '\r' (by decide), hne '\x0b' (by decide), hne '\x0c' (by decide)]
      exact this _ (by omega) (by omega)
    have hs2 : isSpaceChar c = false := by
      rw [isSpaceChar]
      have hne : ∀ e : Char, e.toNat < 97 → ¬ c = e := by
        intro e he hce
        rw [hce] at h1
        omega
      simp [hne ' ' (by decide), hne '\t' (by decide), hne '\n' (by decide),
        hne '\r' (by decide), hne '\x0b' (by decide), hne '\x0c' (by decide)]
    rw [hs1, hs2]
  · rw [pyUpperChar, if_neg h]

/-- Stripping commutes with upper-casing. -/
theorem pyStrip_pyUpper (s : Str) : pyStrip (pyUpper s) = pyUpper (pyStrip s) := by
  have hcomp : (isSpaceChar ∘ pyUpperChar) = isSpaceChar := by
    funext c
    exact isSpaceChar_pyUpperChar c
  simp only [pyStrip, pyUpper]
  rw [List.dropWhile_map, hcomp, ← List.map_reverse, List.dropWhile_map, hcomp,
    ← List.map_reverse]

theorem lookup_setStore_self (s : Store) (k : Str × Str) (v : DayRecord)
    (h : ∃ r, lookupStore s k = some r) :
    lookupStore (setStore s k v) k = some v := by
  induction s with
  | nil => rcases h with ⟨r, hr⟩; cases hr
  | cons e t ih =>
    by_cases he : e.1 = k
    · simp [setStore, lookupStore, he]
    · simp only [setStore, lookupStore, if_neg he] at h ⊢
      exact ih h

theorem lookup_setStore_other (s : Store) (k : Str × Str) (v : DayRecord)
    (k' : Str × Str) (h : ¬ k = k') :
    lookupStore (setStore s k v) k' = lookupStore s k' := by
  induction s with
  | nil => rfl
  | cons e t ih =>
    by_cases he : e.1 = k
    · simp only [setStore, if_pos he, lookupStore, if_neg h, ih]
      rw [if_neg (show ¬ e.1 = k' by rw [he]; exact h)]
    · simp only [setStore, if_neg he, lookupStore, ih]

/-- C8: the status endpoint never mutates an existing record, and a
second call right after returns the identical payload and store. -/
theorem getStatus_frame (store : Store) (token date : Str) :
    (∀ k r, lookupStore store k = some r →
      lookupStore (GameStatus.get store token date).2 k = some r)
    ∧ GameStatus.get (GameStatus.get store token date).2 token date
        = GameStatus.get store token date := by
  constructor
  · intro k r hk
    simp only [GameStatus.get, get_state_for_today]
    rcases hls : lookupStore store (token, date) with _ | s
    · by_cases hkk : ((token, date) : Str × Str) = k
      · rw [← hkk] at hk
        rw [hls] at hk
        cases hk
      · simp only [lookupStore, if_neg hkk]
        exact hk
    · exact hk
  · simp only [GameStatus.get, get_state_for_today]
    rcases hls : lookupStore store (token, date) with _ | s
    · simp [lookupStore]
    · simp [hls]

theorem getStatus_frame_witness :
    (∀ k r, lookupStore [((("t".data, "20240101".data) : Str × Str), emptyRecord)] k = some r →
      lookupStore (GameStatus.get [((("t".data, "20240101".data) : Str × Str), emptyRecord)]
        ("t".data) ("20240101".data)).2 k = some r)
    ∧ GameStatus.get
        (GameStatus.get [((("t".data, "20240101".data) : Str × Str), emptyRecord)]
          ("t".data) ("20240101".data)).2 ("t".data) ("20240101".data)
      = GameStatus.get [((("t".data, "20240101".data) : Str × Str), emptyRecord)]
          ("t".data) ("20240101".data) :=
  getStatus_frame [((("t".data, "20240101".data) : Str × Str), emptyRecord)]
    ("t".data) ("20240101".data)

/-- C4: on a finished record, the guess endpoint short-circuits with the
reached status, the stored attempt count, empty feedback, the fixed
message, and no store change, for any raw guess. -/
theorem submit_finished_shortcircuit (store : Store) (token date raw : Str)
    (r : DayRecord) (hk : lookupStore store (token, date) = some r)
    (hf : r.finished = true) :
    GameGuess.post store token date raw
      = (Except.ok { feedback := [],
                     attempts_used := r.attempts.length,
                     max_attempts := MAX_ATTEMPTS,
                     status := if r.won then "won".data else "lost".data,
                     message := "Game already finished for today.".data }, store) := by
  simp only [GameGuess.post, get_state_for_today, hk, hf]
  rfl

theorem submit_finished_shortcircuit_witness :
    (lookupStore [((("t".data, "20240101".data) : Str × Str),
        { attempts := [], finished := true, won := false })]
        (("t".data, "20240101".data)) = some { attempts := [], finished := true, won := false }
      ∧ ({ attempts := [], finished := true, won := false } : DayRecord).finished = true)
    ∧ GameGuess.post [((("t".data, "20240101".data) : Str × Str),
        { attempts := [], finished := true, won := false })]
        ("t".data) ("20240101".data) ("!!".data)
      = (Except.ok { feedback := [],
                     attempts_used := ([] : List Attempt).length,
                     max_attempts := MAX_ATTEMPTS,
                     status := if ({ attempts := [], finished := true,
                                     won := false } : DayRecord).won
                               then "won".data else "lost".data,
                     message := "Game already finished for today.".data },
        [((("t".data, "20240101".data) : Str × Str),
          { attempts := [], finished := true, won := false })]) :=
  ⟨⟨by decide, by decide⟩,
    submit_finished_shortcircuit
      [((("t".data, "20240101".data) : Str × Str),
        { attempts := [], finished := true, won := false })]
      ("t".data) ("20240101".data) ("!!".data)
      { attempts := [], finished := true, won := false }
      (by decide) (by decide)⟩

theorem pyIsAlpha_of (s : Str) (h6 : s.length = WORD_LENGTH)
    (hall : s.all isAlphaChar = true) : pyIsAlpha s = true := by
  unfold pyIsAlpha
  rw [hall]
  have he : s.isEmpty = false := by
    rcases s with _ | ⟨c, t⟩
    · simp [WORD_LENGTH] at h6
    · rfl
  rw [he]
  rfl

/-- C6: on a non-finished game the guess endpoint rejects exactly the raw
guesses whose trimmed upper-cased form is not 6 alphabetic letters, and a
rejection leaves the store unchanged. -/
theorem submit_invalid_iff (store : Store) (token date raw : Str) (r : DayRecord)
    (hk : lookupStore store (token, date) = some r) (hf : r.finished = false) :
    ((∃ e, (GameGuess.post store token date raw).1 = Except.error e) ↔
      ¬ ((pyUpper (pyStrip raw)).length = WORD_LENGTH
          ∧ (pyUpper (pyStrip raw)).all isAlphaChar = true))
    ∧ (¬ ((pyUpper (pyStrip raw)).length = WORD_LENGTH
          ∧ (pyUpper (pyStrip raw)).all isAlphaChar = true) →
        (GameGuess.post store token date raw).2 = store) := by
  have hfne : ¬ (r.finished = true) := by rw [hf]; exact Bool.false_ne_true
  by_cases hc : (pyUpper (pyStrip raw)).length = WORD_LENGTH
      ∧ (pyUpper (pyStrip raw)).all isAlphaChar = true
  · have hcond : ¬ ((pyUpper (pyStrip raw)).length ≠ WORD_LENGTH
        ∨ pyIsAlpha (pyUpper (pyStrip raw)) = false) := by
      rw [pyIsAlpha_of _ hc.1 hc.2]
      push_neg
      exact ⟨hc.1, by decide⟩
    constructor
    · simp only [GameGuess.post, get_state_for_today, hk, if_neg hfne, if_neg hcond]
      constructor
      · intro he
        rcases he with ⟨e, he⟩
        split_ifs at he
      · intro hcc
        exact absurd hc hcc
    · intro hcc
      exact absurd hc hcc
  · have hcond : (pyUpper (pyStrip raw)).length ≠ WORD_LENGTH
        ∨ pyIsAlpha (pyUpper (pyStrip raw)) = false := by
      by_cases h6 : (pyUpper (pyStrip raw)).length = WORD_LENGTH
      · right
        have hna : ¬ ((pyUpper (pyStrip raw)).all isAlphaChar = true) := by
          intro ha
          exact hc ⟨h6, ha⟩
        unfold pyIsAlpha
        rw [Bool.eq_false_iff]
        intro hT
        rcases Bool.and_eq_true _ _ |>.mp hT with ⟨_, ha⟩
        exact hna ha
      · exact Or.inl h6
    simp only [GameGuess.post, get_state_for_today, hk, if_neg hfne, if_pos hcond]
    refine ⟨⟨fun _ => hc, fun _ => ?_⟩, fun _ => ?_⟩
    · exact ⟨"Guess must be exactly 6 letters.".data, rfl⟩
    · trivial

theorem submit_invalid_iff_witness :
    (lookupStore [((("t".data, "20240101".data) : Str × Str), emptyRecord)]
        (("t".data, "20240101".data)) = some emptyRecord
      ∧ emptyRecord.finished = false)
    ∧ (((∃ e, (GameGuess.post [((("t".data, "20240101".data) : Str × Str), emptyRecord)]
          ("t".data) ("20240101".data) ("AB".data)).1 = Except.error e) ↔
        ¬ ((pyUpper (pyStrip ("AB".data))).length = WORD_LENGTH
            ∧ (pyUpper (pyStrip ("AB".data))).all isAlphaChar = true))
      ∧ (¬ ((pyUpper (pyStrip ("AB".data))).length = WORD_LENGTH
            ∧ (pyUpper (pyStrip ("AB".data))).all isAlphaChar = true) →
          (GameGuess.post [((("t".data, "20240101".data) : Str × Str), emptyRecord)]
            ("t".data) ("20240101".data) ("AB".data)).2
            = [((("t".data, "20240101".data) : Str × Str), emptyRecord)])) :=
  ⟨⟨by decide, by decide⟩,
    submit_invalid_iff [((("t".data, "20240101".data) : Str × Str), emptyRecord)]
      ("t".data) ("20240101".data) ("AB".data) emptyRecord (by decide) (by decide)⟩

/-- C3: on a valid guess against a non-finished record, an all-green
feedback wins and finishes the record even on the 5th attempt; otherwise
reaching `MAX_ATTEMPTS` loses, finishes the record and reveals the daily
answer inside the message; otherwise the game stays in progress. -/
theorem submit_outcomes (store : Store) (token date raw : Str) (r : DayRecord)
    (hk : lookupStore store (token, date) = some r) (hf : r.finished = false)
    (hv : (pyUpper (pyStrip raw)).length = WORD_LENGTH
      ∧ (pyUpper (pyStrip raw)).all isAlphaChar = true) :
    (((score_guess (pyUpper (pyStrip raw)) (select_daily_word date)).all
        (fun x => decide (x = Color.green)) = true →
      (GameGuess.post store token date raw).1
          = Except.ok { feedback := score_guess (pyUpper (pyStrip raw)) (select_daily_word date),
                        attempts_used := r.attempts.length + 1,
                        max_attempts := MAX_ATTEMPTS,
                        status := "won".data,
                        message := "Correct! 🎉".data }
        ∧ lookupStore (GameGuess.post store token date raw).2 (token, date)
            = some { attempts := r.attempts
                        ++ [{ guess := pyUpper (pyStrip raw),
                              feedback := score_guess (pyUpper (pyStrip raw))
                                (select_daily_word date) }],
                     finished := true, won := true })
    ∧ (¬ (score_guess (pyUpper (pyStrip raw)) (select_daily_word date)).all
          (fun x => decide (x = Color.green)) = true →
        r.attempts.length + 1 = MAX_ATTEMPTS →
      (GameGuess.post store token date raw).1
          = Except.ok { feedback := score_guess (pyUpper (pyStrip raw)) (select_daily_word date),
                        attempts_used := r.attempts.length + 1,
                        max_attempts := MAX_ATTEMPTS,
                        status := "lost".data,
                        message := "No attempts left. The word was ".data
                          ++ select_daily_word date ++ ".".data }
        ∧ (∃ s t, "No attempts left. The word was ".data ++ select_daily_word date ++ ".".data
            = s ++ select_daily_word date ++ t)
        ∧ lookupStore (GameGuess.post store token date raw).2 (token, date)
            = some { attempts := r.attempts
                        ++ [{ guess := pyUpper (pyStrip raw),
                              feedback := score_guess (pyUpper (pyStrip raw))
                                (select_daily_word date) }],
                     finished := true, won := false })
    ∧ (¬ (score_guess (pyUpper (pyStrip raw)) (select_daily_word date)).all
          (fun x => decide (x = Color.green)) = true →
        r.attempts.length + 1 < MAX_ATTEMPTS →
      (GameGuess.post store token date raw).1
          = Except.ok { feedback := score_guess (pyUpper (pyStrip raw)) (select_daily_word date),
                        attempts_used := r.attempts.length + 1,
                        max_attempts := MAX_ATTEMPTS,
                        status := "in_progress".data,
                        message := "Good try! Keep going.".data }
        ∧ lookupStore (GameGuess.post store token date raw).2 (token, date)
            = some { attempts := r.attempts
                        ++ [{ guess := pyUpper (pyStrip raw),
                              feedback := score_guess (pyUpper (pyStrip raw))
                                (select_daily_word date) }],
                     finished := r.finished, won := r.won })) := by
  have hfne : ¬ (r.finished = true) := by rw [hf]; exact (by decide)
  have hcond : ¬ ((pyUpper (pyStrip raw)).length ≠ WORD_LENGTH
      ∨ pyIsAlpha (pyUpper (pyStrip raw)) = false) := by
    rw [pyIsAlpha_of _ hv.1 hv.2]
    push_neg
    exact ⟨hv.1, by decide⟩
  have hlenapp : ∀ x : Attempt, (r.attempts ++ [x]).length = r.attempts.length + 1 := by
    intro x
    rw [List.length_append]
    rfl
  refine ⟨?_, ?_, ?_⟩
  · intro hwin
    simp only [GameGuess.post, get_state_for_today, hk, if_neg hfne, if_neg hcond,
      if_pos hwin, hlenapp]
    exact ⟨trivial, lookup_setStore_self store (token, date) _ ⟨r, hk⟩⟩
  · intro hnw hmax
    have hge : r.attempts.length + 1 ≥ MAX_ATTEMPTS := by omega
    simp only [GameGuess.post, get_state_for_today, hk, if_neg hfne, if_neg hcond,
      if_neg hnw, hlenapp, if_pos hge]
    exact ⟨trivial, ⟨"No attempts left. The word was ".data, ".".data, rfl⟩,
      lookup_setStore_self store (token, date) _ ⟨r, hk⟩⟩
  · intro hnw hlt
    have hge : ¬ (r.attempts.length + 1 ≥ MAX_ATTEMPTS) := by omega
    simp only [GameGuess.post, get_state_for_today, hk, if_neg hfne, if_neg hcond,
      if_neg hnw, hlenapp, if_neg hge]
    exact ⟨trivial, lookup_setStore_self store (token, date) _ ⟨r, hk⟩⟩

theorem submit_outcomes_witness :
    (lookupStore [((("t".data, "20240101".data) : Str × Str), emptyRecord)]
        (("t".data, "20240101".data)) = some emptyRecord
      ∧ emptyRecord.finished = false
      ∧ (pyUpper (pyStrip ("OCEANS".data))).length = WORD_LENGTH
      ∧ (pyUpper (pyStrip ("OCEANS".data))).all isAlphaChar = true
      ∧ ¬ (score_guess (pyUpper (pyStrip ("OCEANS".data)))
            (select_daily_word ("20240101".data))).all
          (fun x => decide (x = Color.green)) = true
      ∧ emptyRecord.attempts.length + 1 < MAX_ATTEMPTS)
    ∧ ((GameGuess.post [((("t".data, "20240101".data) : Str × Str), emptyRecord)]
          ("t".data) ("20240101".data) ("OCEANS".data)).1
        = Except.ok { feedback := score_guess (pyUpper (pyStrip ("OCEANS".data)))
                        (select_daily_word ("20240101".data)),
                      attempts_used := emptyRecord.attempts.length + 1,
                      max_attempts := MAX_ATTEMPTS,
                      status := "in_progress".data,
                      message := "Good try! Keep going.".data }
      ∧ lookupStore (GameGuess.post [((("t".data, "20240101".data) : Str × Str), emptyRecord)]
          ("t".data) ("20240101".data) ("OCEANS".data)).2 (("t".data, "20240101".data))
        = some { attempts := emptyRecord.attempts
                    ++ [{ guess := pyUpper (pyStrip ("OCEANS".data)),
                          feedback := score_guess (pyUpper (pyStrip ("OCEANS".data)))
                            (select_daily_word ("20240101".data)) }],
                 finished := emptyRecord.finished, won := emptyRecord.won }) :=
  ⟨⟨by decide, by decide, by decide, by decide, by decide, by decide⟩,
    (submit_outcomes [((("t".data, "20240101".data) : Str × Str), emptyRecord)]
      ("t".data) ("20240101".data) ("OCEANS".data) emptyRecord
      (by decide) (by decide) ⟨by decide, by decide⟩).2.2 (by decide) (by decide)⟩

/-- C10: a raw guess is accepted whenever its upper-cased form would be;
the stored attempt and the status payload's guesses hold the trimmed,
upper-cased form, in submission order. -/
theorem submit_normalized (store : Store) (token date raw : Str) (r : DayRecord)
    (hk : lookupStore store (token, date) = some r) (hf : r.finished = false)
    (hvU : (pyUpper (pyStrip (pyUpper raw))).length = WORD_LENGTH
      ∧ (pyUpper (pyStrip (pyUpper raw))).all isAlphaChar = true) :
    (∃ res, (GameGuess.post store token date raw).1 = Except.ok res)
    ∧ (∃ rec, lookupStore (GameGuess.post store token date raw).2 (token, date) = some rec
        ∧ rec.attempts = r.attempts
            ++ [{ guess := pyUpper (pyStrip raw),
                  feedback := score_guess (pyUpper (pyStrip raw)) (select_daily_word date) }])
    ∧ (GameStatus.get (GameGuess.post store token date raw).2 token date).1.guesses
        = r.attempts.map (fun e => e.guess) ++ [pyUpper (pyStrip raw)] := by
  have hnorm : pyUpper (pyStrip (pyUpper raw)) = pyUpper (pyStrip raw) := by
    rw [pyStrip_pyUpper, pyUpper_idem]
  rw [hnorm] at hvU
  have hfne : ¬ (r.finished = true) := by rw [hf]; exact (by decide)
  have hcond : ¬ ((pyUpper (pyStrip raw)).length ≠ WORD_LENGTH
      ∨ pyIsAlpha (pyUpper (pyStrip raw)) = false) := by
    rw [pyIsAlpha_of _ hvU.1 hvU.2]
    push_neg
    exact ⟨hvU.1, by decide⟩
  simp only [GameGuess.post, get_state_for_today, hk, if_neg hfne, if_neg hcond]
  split_ifs with h1 h2 <;>
    · refine ⟨⟨_, rfl⟩, ⟨_, lookup_setStore_self store (token, date) _ ⟨r, hk⟩, rfl⟩, ?_⟩
      simp only [GameStatus.get, get_state_for_today,
        lookup_setStore_self store (token, date) _ ⟨r, hk⟩]
      simp

theorem submit_normalized_witness :
    (lookupStore [((("t".data, "20240101".data) : Str × Str), emptyRecord)]
        (("t".data, "20240101".data)) = some emptyRecord
      ∧ emptyRecord.finished = false
      ∧ (pyUpper (pyStrip (pyUpper ("ocEAns".data)))).length = WORD_LENGTH
      ∧ (pyUpper (pyStrip (pyUpper ("ocEAns".data)))).all isAlphaChar = true)
    ∧ ((∃ res, (GameGuess.post [((("t".data, "20240101".data) : Str × Str), emptyRecord)]
          ("t".data) ("20240101".data) ("ocEAns".data)).1 = Except.ok res)
      ∧ (∃ rec, lookupStore
            (GameGuess.post [((("t".data, "20240101".data) : Str × Str), emptyRecord)]
              ("t".data) ("20240101".data) ("ocEAns".data)).2 (("t".data, "20240101".data))
            = some rec
          ∧ rec.attempts = emptyRecord.attempts
              ++ [{ guess := pyUpper (pyStrip ("ocEAns".data)),
                    feedback := score_guess (pyUpper (pyStrip ("ocEAns".data)))
                      (select_daily_word ("20240101".data)) }])
      ∧ (GameStatus.get
            (GameGuess.post [((("t".data, "20240101".data) : Str × Str), emptyRecord)]
              ("t".data) ("20240101".data) ("ocEAns".data)).2
            ("t".data) ("20240101".data)).1.guesses
          = emptyRecord.attempts.map (fun e => e.guess) ++ [pyUpper (pyStrip ("ocEAns".data))]) :=
  ⟨⟨by decide, by decide, by decide, by decide⟩,
    submit_normalized [((("t".data, "20240101".data) : Str × Str), emptyRecord)]
      ("t".data) ("20240101".data) ("ocEAns".data) emptyRecord
      (by decide) (by decide) ⟨by decide, by decide⟩⟩

/-- The DayRecord invariants stated by the spec. -/
def RecordInv (r : DayRecord) : Prop :=
  r.attempts.length ≤ MAX_ATTEMPTS
  ∧ (r.won = true → r.finished = true)
  ∧ (r.attempts.filter (fun a => a.feedback.all (fun x => decide (x = Color.green)))).length ≤ 1
  ∧ (∀ a ∈ r.attempts, a.feedback.all (fun x => decide (x = Color.green)) = true →
      r.attempts.getLast? = some a ∧ r.won = true)

/-- Strengthened induction invariant: an unfinished record also has room
for another attempt, has not won, and holds no all-green attempt. -/
def StrongInv (r : DayRecord) : Prop :=
  RecordInv r
  ∧ (r.finished = false →
      r.attempts.length < MAX_ATTEMPTS ∧ r.won = false
      ∧ ∀ a ∈ r.attempts, ¬ a.feedback.all (fun x => decide (x = Color.green)) = true)

theorem strongInv_empty : StrongInv emptyRecord := by
  refine ⟨⟨?_, ?_, ?_, ?_⟩, ?_⟩ <;> simp [emptyRecord, RecordInv, MAX_ATTEMPTS]

theorem strongInv_append_won (q : DayRecord) (hq : StrongInv q) (hfin : q.finished = false)
    (g : Str) (fb : List Color)
    (hwin : fb.all (fun x => decide (x = Color.green)) = true) :
    StrongInv { attempts := q.attempts ++ [{ guess := g, feedback := fb }],
                finished := true, won := true } := by
  obtain ⟨⟨hlen, hwf, hfilter, hlast⟩, hnf⟩ := hq
  obtain ⟨hlt, hw, hng⟩ := hnf hfin
  have hfilq : q.attempts.filter (fun a => a.feedback.all (fun x => decide (x = Color.green)))
      = [] := List.filter_eq_nil_iff.mpr hng
  refine ⟨⟨?_, ?_, ?_, ?_⟩, ?_⟩
  · simp only [List.length_append, List.length_cons, List.length_nil]
    simp only [MAX_ATTEMPTS] at *
    omega
  · intro
    rfl
  · simp only [List.filter_append, hfilq, List.nil_append]
    simp [hwin]
  · intro a ha hag
    rcases List.mem_append.mp ha with hmem | hmem
    · exact absurd hag (hng a hmem)
    · have haeq : a = { guess := g, feedback := fb } := by simpa using hmem
      subst haeq
      exact ⟨List.getLast?_concat _, rfl⟩
  · intro hcon
    cases hcon

theorem strongInv_append_lost (q : DayRecord) (hq : StrongInv q) (hfin : q.finished = false)
    (g : Str) (fb : List Color)
    (hnw : ¬ fb.all (fun x => decide (x = Color.green)) = true) :
    StrongInv { attempts := q.attempts ++ [{ guess := g, feedback := fb }],
                finished := true, won := false } := by
  obtain ⟨⟨hlen, hwf, hfilter, hlast⟩, hnf⟩ := hq
  obtain ⟨hlt, hw, hng⟩ := hnf hfin
  have hfilq : q.attempts.filter (fun a => a.feedback.all (fun x => decide (x = Color.green)))
      = [] := List.filter_eq_nil_iff.mpr hng
  refine ⟨⟨?_, ?_, ?_, ?_⟩, ?_⟩
  · simp only [List.length_append, List.length_cons, List.length_nil]
    simp only [MAX_ATTEMPTS] at *
    omega
  · intro hcon
    cases hcon
  · simp only [List.filter_append, hfilq, List.nil_append]
    simp [hnw]
  · intro a ha hag
    rcases List.mem_append.mp ha with hmem | hmem
    · exact absurd hag (hng a hmem)
    · have haeq : a = { guess := g, feedback := fb } := by simpa using hmem
      subst haeq
      exact absurd hag hnw
  · intro hcon
    cases hcon

theorem strongInv_append_progress (q : DayRecord) (hq : StrongInv q)
    (hfin : q.finished = false) (g : Str) (fb : List Color)
    (hnw : ¬ fb.all (fun x => decide (x = Color.green)) = true)
    (hroom : q.attempts.length + 1 < MAX_ATTEMPTS) :
    StrongInv { attempts := q.attempts ++ [{ guess := g, feedback := fb }],
                finished := q.finished, won := q.won } := by
  obtain ⟨⟨hlen, hwf, hfilter, hlast⟩, hnf⟩ := hq
  obtain ⟨hlt, hw, hng⟩ := hnf hfin
  have hfilq : q.attempts.filter (fun a => a.feedback.all (fun x => decide (x = Color.green)))
      = [] := List.filter_eq_nil_iff.mpr hng
  refine ⟨⟨?_, ?_, ?_, ?_⟩, ?_⟩
  · simp only [List.length_append, List.length_cons, List.length_nil]
    simp only [MAX_ATTEMPTS] at *
    omega
  · intro hcon
    rw [hw] at hcon
    cases hcon
  · simp only [List.filter_append, hfilq, List.nil_append]
    simp [hnw]
  · intro a ha hag
    rcases List.mem_append.mp ha with hmem | hmem
    · exact absurd hag (hng a hmem)
    · have haeq : a = { guess := g, feedback := fb } := by simpa using hmem
      subst haeq
      exact absurd hag hnw
  · intro _
    refine ⟨?_, hw, ?_⟩
    · simp only [List.length_append, List.length_cons, List.length_nil]
      omega
    · intro a ha
      rcases List.mem_append.mp ha with hmem | hmem
      · exact hng a hmem
      · have haeq : a = { guess := g, feedback := fb } := by simpa using hmem
        subst haeq
        exact hnw

/-- Lookup analysis after writing back the updated record. -/
theorem lookup_after_set (s₁ : Store) (key : Str × Str) (q newrec : DayRecord)
    (hkey : lookupStore s₁ key = some q)
    (hpres : ∀ k' r', lookupStore s₁ k' = some r' → StrongInv r')
    (hnew : StrongInv newrec) (k : Str × Str) (r : DayRecord)
    (h : lookupStore (setStore s₁ key newrec) k = some r) : StrongInv r := by
  by_cases hkk : key = k
  · rw [← hkk, lookup_setStore_self s₁ key newrec ⟨q, hkey⟩] at h
    injection h with h2
    rw [← h2]
    exact hnew
  · rw [lookup_setStore_other s₁ key newrec k hkk] at h
    exact hpres k r h

/-- Every record in a reachable store satisfies the strengthened
invariant. -/
theorem reachable_strong_inv (s : Store) (hs : ReachableStore s) :
    ∀ k r, lookupStore s k = some r → StrongInv r := by
  induction hs with
  | init =>
    intro k r h
    cases h
  | @status token date s' hprev ih =>
    intro k r h
    simp only [GameStatus.get, get_state_for_today] at h
    rcases hls : lookupStore s' (token, date) with _ | q
    · rw [hls] at h
      simp only at h
      by_cases hkk : ((token, date) : Str × Str) = k
      · simp only [lookupStore, if_pos hkk] at h
        injection h with h2
        rw [← h2]
        exact strongInv_empty
      · simp only [lookupStore, if_neg hkk] at h
        exact ih k r h
    · rw [hls] at h
      simp only at h
      exact ih k r h
  | @guess token date raw s' hprev ih =>
    intro k r h
    simp only [GameGuess.post, get_state_for_today] at h
    rcases hls : lookupStore s' (token, date) with _ | q
    · rw [hls] at h
      simp only at h
      have hkey : lookupStore (((token, date), emptyRecord) :: s') (token, date)
          = some emptyRecord := by
        simp [lookupStore]
      have hpres : ∀ k' r', lookupStore (((token, date), emptyRecord) :: s') k' = some r' →
          StrongInv r' := by
        intro k' r' h'
        by_cases hkk : ((token, date) : Str × Str) = k'
        · simp only [lookupStore, if_pos hkk] at h'
          injection h' with h2
          rw [← h2]
          exact strongInv_empty
        · simp only [lookupStore, if_neg hkk] at h'
          exact ih k' r' h'
      split at h
      · exact hpres k r h
      · split at h
        · exact hpres k r h
        · split at h
          · exact lookup_after_set _ _ emptyRecord _ hkey hpres
              (strongInv_append_won emptyRecord strongInv_empty rfl _ _ (by assumption)) k r h
          · split at h
            · exact lookup_after_set _ _ emptyRecord _ hkey hpres
                (strongInv_append_lost emptyRecord strongInv_empty rfl _ _ (by assumption)) k r h
            · have hroom : emptyRecord.attempts.length + 1 < MAX_ATTEMPTS := by
                rename_i hnotge
                simp only [List.length_append, List.length_cons,
                  List.length_nil] at hnotge
                omega
              exact lookup_after_set _ _ emptyRecord _ hkey hpres
                (strongInv_append_progress emptyRecord strongInv_empty rfl _ _
                  (by assumption) hroom) k r h
    · rw [hls] at h
      simp only at h
      have hq : StrongInv q := ih (token, date) q hls
      split at h
      · exact ih k r h
      · split at h
        · exact ih k r h
        · rename_i hnf _
          have hfin : q.finished = false := by
            revert hnf
            rcases q.finished with _ | _ <;> simp
          split at h
          · exact lookup_after_set _ _ q _ hls ih
              (strongInv_append_won q hq hfin _ _ (by assumption)) k r h
          · split at h
            · exact lookup_after_set _ _ q _ hls ih
                (strongInv_append_lost q hq hfin _ _ (by assumption)) k r h
            · have hroom : q.attempts.length + 1 < MAX_ATTEMPTS := by
                rename_i hnotge
                simp only [List.length_append, List.length_cons,
                  List.length_nil] at hnotge
                omega
              exact lookup_after_set _ _ q _ hls ih
                (strongInv_append_progress q hq hfin _ _ (by assumption) hroom) k r h

/-- C5: every DayRecord in a store reachable from the empty store has at
most `MAX_ATTEMPTS` attempts, `won` implies `finished`, and at most one
all-green attempt, which must be the last one and must have set `won`. -/
theorem reachable_record_invariant (s : Store) (hs : ReachableStore s)
    (k : Str × Str) (r : DayRecord) (h : lookupStore s k = some r) :
    r.attempts.length ≤ MAX_ATTEMPTS
    ∧ (r.won = true → r.finished = true)
    ∧ (r.attempts.filter (fun a => a.feedback.all (fun x => decide (x = Color.green)))).length ≤ 1
    ∧ (∀ a ∈ r.attempts, a.feedback.all (fun x => decide (x = Color.green)) = true →
        r.attempts.getLast? = some a ∧ r.won = true) :=
  (reachable_strong_inv s hs k r h).1

theorem reachable_record_invariant_witness :
    (lookupStore (GameStatus.get [] ("t".data) ("20240101".data)).2
        (("t".data, "20240101".data)) = some emptyRecord)
    ∧ (emptyRecord.attempts.length ≤ MAX_ATTEMPTS
      ∧ (emptyRecord.won = true → emptyRecord.finished = true)
      ∧ (emptyRecord.attempts.filter
          (fun a => a.feedback.all (fun x => decide (x = Color.green)))).length ≤ 1
      ∧ (∀ a ∈ emptyRecord.attempts,
          a.feedback.all (fun x => decide (x = Color.green)) = true →
            emptyRecord.attempts.getLast? = some a ∧ emptyRecord.won = true)) :=
  ⟨by decide,
    reachable_record_invariant (GameStatus.get [] ("t".data) ("20240101".data)).2
      (ReachableStore.status ("t".data) ("20240101".data) ReachableStore.init)
      (("t".data, "20240101".data)) emptyRecord (by decide)⟩
